import Mathlib

/-!
Verification of the schema-driven request-validation and dispatch layer of the
Adobe I/O MCP server (`src/utils/sdk-schema-manager.js`, `src/server.js`,
`src/tools/index.js`) and of the Process Executor interface.

JSON values are modelled by `JValue`; JavaScript `Map`s and plain objects are
modelled as association lists in insertion order, with `Map.set` / property
assignment updating an existing key in place and appending a fresh key at the
end, exactly as JavaScript does.
-/

namespace AdobeIOMCP

/-- A JSON value, as produced by `JSON.parse`.  Numbers carry an integer part
together with a flag `isInt` recording whether the value is a mathematical
integer (`Number.isInteger`); this is all `z.number().int()` inspects. -/
inductive JValue where
  | jNull
  | jBool (b : Bool)
  | jNum (n : Int) (isInt : Bool)
  | jStr (s : String)
  | jArr (elems : List JValue)
  | jObj (fields : List (String × JValue))

/-- Lookup of the first binding of key `k` in an association list (JavaScript
objects and `Map`s never hold duplicate keys, so the first binding is the
binding). -/
def alGet {α : Type} : List (String × α) → String → Option α
  | [], _ => none
  | (k', v') :: rest, k => if k' = k then some v' else alGet rest k

/-- `Map.prototype.set` / object property assignment: update an existing key in
place, otherwise append the new binding at the end. -/
def alSet {α : Type} : List (String × α) → String → α → List (String × α)
  | [], k, v => [(k, v)]
  | (k', v') :: rest, k, v =>
      if k' = k then (k, v) :: rest else (k', v') :: alSet rest k v

/-- The JavaScript `key in obj` test (for object-valued `obj`). -/
def alContains {α : Type} (m : List (String × α)) (k : String) : Bool :=
  (alGet m k).isSome

/-- The keys of an association list, in insertion order. -/
def alKeys {α : Type} (m : List (String × α)) : List String :=
  m.map Prod.fst

/-- JavaScript property access `v[k]`: field lookup on objects, `undefined`
(modelled as `none`) on every other value. -/
def jsGet : JValue → String → Option JValue
  | .jObj fields, k => alGet fields k
  | _, _ => none

/-- `getParsedType` of Zod: the runtime type name used in its error messages. -/
def typeName : JValue → String
  | .jNull => "null"
  | .jBool _ => "boolean"
  | .jNum _ _ => "number"
  | .jStr _ => "string"
  | .jArr _ => "array"
  | .jObj _ => "object"

/-- Extract a string literal, used to read `inputSchema.required` and `enum`
entries (both are string lists in every descriptor admitted by the data
model). -/
def jStrVal : JValue → Option String
  | .jStr s => some s
  | _ => none

/- ### The compiled Zod validators (`createZodSchema` and `safeParse`)

`createZodSchema` (sdk-schema-manager.js, lines 75-121) compiles one tool
descriptor into a `z.object(...)` value.  The compiled object is modelled by
`ZodObject` below: one `ZField` per declared property, in declaration order.
`safeParse` of the Zod v3 library (an external dependency) is modelled by
`zodSafeParse`, including its default issue messages, which are what
`validateInput` joins into its error string: `"Required"` for a missing value,
`"Expected <t>, received <u>"` for a type mismatch, `"Expected integer,
received float"` for `z.number().int()` on a non-integer, and `"Invalid enum
value. Expected 'a' | 'b', received 'c'"` for an enum mismatch. -/

/-- The base acceptance rule picked by the `switch (propSchema.type)` of
`createZodSchema`: `z.string()`, `z.boolean()`, `z.number().int()`,
`z.number()`, `z.record(z.any())`, or the `z.any()` fallback. -/
inductive ZBase where
  | zstring
  | zboolean
  | zint
  | znumber
  | zrecord
  | zany
deriving DecidableEq

/-- One compiled property rule: the base type, the optional enum narrowing
(which, when present, replaces the base rule entirely — the source overwrites
`zodType` with `z.enum(...)`), and the `.optional()` wrapper applied when the
property is not listed in `required`. -/
structure ZField where
  base : ZBase
  enumVals : Option (List String)
  optional : Bool
deriving DecidableEq

/-- A compiled `z.object({...})` in strip mode (Zod's default: unknown keys
are dropped from the parsed data, not rejected). -/
structure ZodObject where
  fields : List (String × ZField)

/-- `util.joinValues` as used in Zod's enum error messages. -/
def joinValues (vs : List String) : String :=
  String.intercalate " | " (vs.map (fun s => "'" ++ s ++ "'"))

/-- The issue (if any) a single compiled field produces for the candidate
value at its key (`none` = the field accepts).  `v? = none` models the key
being absent from the input object (the value is `undefined`).  Messages are
Zod v3's defaults; note that none of them contains the property's name — the
name lives in the issue's `path`, which `validateInput` does not read. -/
def fieldIssue (f : ZField) (v? : Option JValue) : Option String :=
  match v? with
  | none =>
      if f.optional then none
      else
        match f.enumVals with
        | some _ => some "Required"
        | none =>
            match f.base with
            | .zany => none
            | _ => some "Required"
  | some v =>
      match f.enumVals with
      | some vs =>
          match v with
          | .jStr s =>
              if vs.contains s then none
              else some ("Invalid enum value. Expected " ++ joinValues vs ++
                         ", received '" ++ s ++ "'")
          | _ => some ("Expected " ++ joinValues vs ++ ", received " ++ typeName v)
      | none =>
          match f.base with
          | .zstring =>
              match v with
              | .jStr _ => none
              | _ => some ("Expected string, received " ++ typeName v)
          | .zboolean =>
              match v with
              | .jBool _ => none
              | _ => some ("Expected boolean, received " ++ typeName v)
          | .zint =>
              match v with
              | .jNum _ true => none
              | .jNum _ false => some "Expected integer, received float"
              | _ => some ("Expected number, received " ++ typeName v)
          | .znumber =>
              match v with
              | .jNum _ _ => none
              | _ => some ("Expected number, received " ++ typeName v)
          | .zrecord =>
              match v with
              | .jObj _ => none
              | _ => some ("Expected object, received " ++ typeName v)
          | .zany => none

/-- All issues an object parse collects, one per violating field, in field
declaration order. -/
def zodIssues (zs : ZodObject) (fields : List (String × JValue)) : List String :=
  zs.fields.filterMap (fun p => fieldIssue p.2 (alGet fields p.1))

/-- The parsed data of a successful object parse: the declared keys present in
the input, with their values, in field declaration order.  Undeclared keys are
stripped (Zod's default object mode); absent optional keys are omitted. -/
def zodData (zs : ZodObject) (fields : List (String × JValue)) :
    List (String × JValue) :=
  zs.fields.filterMap (fun p => (alGet fields p.1).map (fun v => (p.1, v)))

/-- Result of `safeParse`: either the parsed data or the list of issue
messages. -/
inductive ZodResult where
  | ok (data : List (String × JValue))
  | err (messages : List String)

/-- `zodSchema.safeParse(input)` for a compiled object schema.  `input = none`
models calling it with `undefined` (the router does so when a request carries
no `arguments`); a defined non-object input fails the root object check. -/
def zodSafeParse (zs : ZodObject) (input : Option JValue) : ZodResult :=
  match input with
  | none => .err ["Required"]
  | some (.jObj fields) =>
      let issues := zodIssues zs fields
      if issues.isEmpty then .ok (zodData zs fields) else .err issues
  | some v => .err ["Expected object, received " ++ typeName v]

/- ### The SDK schema manager (`sdk-schema-manager.js`) -/

/-- The state of the `SDKSchemaManager` singleton: the descriptor index
`this.schemas` (name → stored descriptor document) and the validator cache
`this.zodSchemas` (name → compiled Zod schema), both JavaScript `Map`s. -/
structure SDKSchemaManager where
  schemas : List (String × JValue)
  zodSchemas : List (String × ZodObject)

/-- The state built by the constructor: two empty maps. -/
def initialManager : SDKSchemaManager := ⟨[], []⟩

/-- The per-property body of `createZodSchema`'s loop: pick the base rule from
`propSchema.type`, replace it by `z.enum(propSchema.enum)` when an enum is
declared (`enum` is an array of string literals in every descriptor admitted
by the data model), and wrap with `.optional()` when the key is not required. -/
def compileProp (required : List String) (key : String) (ps : JValue) : ZField :=
  let base : ZBase :=
    match jsGet ps "type" with
    | some (.jStr "string") => .zstring
    | some (.jStr "boolean") => .zboolean
    | some (.jStr "integer") => .zint
    | some (.jStr "number") => .znumber
    | some (.jStr "object") => .zrecord
    | _ => .zany
  let enumVals : Option (List String) :=
    match jsGet ps "enum" with
    | some (.jArr vs) => some (vs.filterMap jStrVal)
    | _ => none
  { base := base, enumVals := enumVals, optional := !required.contains key }

/-- `createZodSchema(toolSchema)` (lines 75-121): returns without touching the
cache when the descriptor has no `inputSchema.properties`; otherwise compiles
every declared property and stores the `z.object` under `toolSchema.name`.
(`createZodSchema` is only ever invoked on shape-validated descriptors, whose
`name` is a string and whose `properties`, when present, is an object.) -/
def createZodSchema (st : SDKSchemaManager) (toolSchema : JValue) :
    SDKSchemaManager :=
  match jsGet toolSchema "inputSchema" with
  | none => st
  | some is =>
      match jsGet is "properties" with
      | some (.jObj props) =>
          let required : List String :=
            match jsGet is "required" with
            | some (.jArr xs) => xs.filterMap jStrVal
            | _ => []
          let fields := props.map (fun p => (p.1, compileProp required p.1 p.2))
          match jsGet toolSchema "name" with
          | some (.jStr n) =>
              { st with zodSchemas := alSet st.zodSchemas n ⟨fields⟩ }
          | _ => st
      | _ => st

/-- `ToolInputSchema.safeParse(schema).success`: the descriptor shape check of
lines 23-31 — `name` and `description` must be strings, `inputSchema` an
object whose `type` is the literal `"object"`, whose `properties` (when
present) is an object (`z.record(z.any())`) and whose `required` (when
present) is an array of strings; extra fields pass through. -/
def toolInputSchemaOk (doc : JValue) : Bool :=
  match doc with
  | .jObj fields =>
      (match alGet fields "name" with
       | some (.jStr _) => true
       | _ => false) &&
      (match alGet fields "description" with
       | some (.jStr _) => true
       | _ => false) &&
      (match alGet fields "inputSchema" with
       | some (.jObj isf) =>
           (match alGet isf "type" with
            | some (.jStr t) => t = "object"
            | _ => false) &&
           (match alGet isf "properties" with
            | none => true
            | some (.jObj _) => true
            | _ => false) &&
           (match alGet isf "required" with
            | none => true
            | some (.jArr xs) =>
                xs.all (fun x => match x with | .jStr _ => true | _ => false)
            | _ => false)
       | _ => false)
  | _ => false

/-- Whether a descriptor document carries an `inputSchema.properties` object —
the condition under which `createZodSchema` actually compiles and caches a
validator instead of returning early. -/
def docHasProps (doc : JValue) : Bool :=
  match jsGet doc "inputSchema" with
  | some is =>
      match jsGet is "properties" with
      | some (.jObj _) => true
      | _ => false
  | none => false

/-- The `file.endsWith(".json")` filter of `loadSchemas`, modelled over the
string's character list (the built-in byte-position `String.endsWith` is not
kernel-reducible). -/
def strEndsWith (s suffix : String) : Bool :=
  List.isSuffixOf suffix.toList s.toList

/-- One file of the schemas directory, as `loadSchemas` sees it: its filename
and the outcome of `JSON.parse` on its text (`Except.error` models the parse
throwing). -/
structure SchemaFile where
  fname : String
  contents : Except String JValue

/-- The loop of `loadSchemas` (lines 43-70) over the directory listing: files
not ending in `.json` are filtered out; a `JSON.parse` failure propagates to
the surrounding `catch`, which logs and **re-throws** (so the whole load
fails); a parsed document failing the shape check is logged and skipped; a
document passing it is stored in `this.schemas` under its `name` and compiled
into the validator cache by `createZodSchema`. -/
def loadSchemasFrom (st : SDKSchemaManager) :
    List SchemaFile → Except String SDKSchemaManager
  | [] => .ok st
  | f :: rest =>
      if strEndsWith f.fname ".json" then
        match f.contents with
        | .error e => .error e
        | .ok doc =>
            if toolInputSchemaOk doc then
              match jsGet doc "name" with
              | some (.jStr n) =>
                  loadSchemasFrom
                    (createZodSchema { st with schemas := alSet st.schemas n doc } doc)
                    rest
              | _ => loadSchemasFrom st rest
            else loadSchemasFrom st rest
      else loadSchemasFrom st rest

/-- `loadSchemas()` run against the current manager state (it does not clear
the maps; it only adds). -/
def loadSchemas (st : SDKSchemaManager) (files : List SchemaFile) :
    Except String SDKSchemaManager :=
  loadSchemasFrom st files

/-- `reloadSchemas()` (lines 216-220): clear both maps, then `loadSchemas()`. -/
def reloadSchemas (_st : SDKSchemaManager) (files : List SchemaFile) :
    Except String SDKSchemaManager :=
  loadSchemas initialManager files

/-- Result shape of `validateInput` / `validateToolRequest`:
`{valid: true, data}` or `{valid: false, error}`. -/
inductive ValidationResult where
  | valid (data : List (String × JValue))
  | invalid (error : String)

/-- `validateInput(schemaName, input)` (lines 140-155): schema-not-found is a
validation failure; otherwise `safeParse`, with failure messages joined by
`", "` after the `"Validation failed: "` prefix. -/
def validateInput (st : SDKSchemaManager) (schemaName : String)
    (input : Option JValue) : ValidationResult :=
  match alGet st.zodSchemas schemaName with
  | none => .invalid ("Schema not found: " ++ schemaName)
  | some zs =>
      match zodSafeParse zs input with
      | .ok data => .valid data
      | .err msgs => .invalid ("Validation failed: " ++ String.intercalate ", " msgs)

/-- The loop body of `applyDefaults`: assign the declared default when the
key is strictly absent from the result so far (`!(key in result) && 'default'
in propertySchema`).  Property schemas are objects in every descriptor
admitted by the data model (§3), so the `in` test is modelled as object-key
presence, i.e. `jsGet p.2 "default" = some d`. -/
def defaultsStep (res : List (String × JValue)) (p : String × JValue) :
    List (String × JValue) :=
  match jsGet p.2 "default" with
  | some d => if alContains res p.1 then res else alSet res p.1 d
  | none => res

/-- `applyDefaults(input, schemaName)` (lines 160-177): unknown schema returns
the input unchanged; otherwise copy the input and run `defaultsStep` over the
declared properties in declaration order. -/
def applyDefaults (st : SDKSchemaManager) (input : List (String × JValue))
    (schemaName : String) : List (String × JValue) :=
  match alGet st.schemas schemaName with
  | none => input
  | some schema =>
      match jsGet schema "inputSchema" with
      | none => input
      | some is =>
          match jsGet is "properties" with
          | some (.jObj props) => props.foldl defaultsStep input
          | _ => input

/- ### The request router (`server.js`, `setupTools`, lines 42-89) -/

/-- One `{type: "text", text}` content block. -/
structure TextContent where
  type : String
  text : String
deriving DecidableEq

/-- The outbound `ToolResponse`: `{content: [...]}`. -/
structure ToolResponse where
  content : List TextContent
deriving DecidableEq

/-- Shorthand for the router's single-text responses. -/
def textResponse (t : String) : ToolResponse :=
  ⟨[⟨"text", t⟩]⟩

/-- The issue list of `CallToolRequestSchema.safeParse(request)` (the MCP
SDK's envelope schema: `method` must be the literal `"tools/call"`, `params`
an object with a string `name` and an optional object `arguments`), with Zod
v3's default messages. -/
def envelopeIssues (request : JValue) : List String :=
  match request with
  | .jObj f =>
      (match alGet f "method" with
       | some (.jStr "tools/call") => []
       | some (.jStr _) => ["Invalid literal value, expected \"tools/call\""]
       | some v => ["Expected string, received " ++ typeName v]
       | none => ["Required"]) ++
      (match alGet f "params" with
       | some (.jObj p) =>
           (match alGet p "name" with
            | some (.jStr _) => []
            | some v => ["Expected string, received " ++ typeName v]
            | none => ["Required"]) ++
           (match alGet p "arguments" with
            | none => []
            | some (.jObj _) => []
            | some v => ["Expected object, received " ++ typeName v])
       | some v => ["Expected object, received " ++ typeName v]
       | none => ["Required"])
  | v => ["Expected object, received " ++ typeName v]

/-- `validateToolRequest(request).valid` (sdk-schema-manager.js lines
182-192): whether the envelope parse succeeds. -/
def validateToolRequestValid (request : JValue) : Bool :=
  (envelopeIssues request).isEmpty

/-- The `error` field `validateToolRequest` returns on failure. -/
def validateToolRequestError (request : JValue) : String :=
  "Invalid tool request: " ++ String.intercalate ", " (envelopeIssues request)

/-- `request.params` (nullish when absent, a case only reached after envelope
validation rules it out). -/
def reqParams (request : JValue) : JValue :=
  match jsGet request "params" with
  | some p => p
  | none => .jNull

/-- The `name` of `const { name, arguments: args } = request.params` — a
string whenever the envelope is valid. -/
def reqName (request : JValue) : String :=
  match jsGet (reqParams request) "name" with
  | some (.jStr n) => n
  | _ => ""

/-- The `arguments` of the same destructuring (`none` = absent/`undefined`). -/
def reqArgs (request : JValue) : Option JValue :=
  jsGet (reqParams request) "arguments"

/-- A tool handler as the router awaits it: from the validated-and-defaulted
argument object to either a resolved `ToolResponse` or a thrown/rejected
error's message.  A dispatch table maps a tool name to a handler, or to `none`
when no handler is registered (`getToolHandler`'s `default: return null`;
tools/index.js lines 15-40). -/
def Handler : Type := List (String × JValue) → Except String ToolResponse

/-- The `CallToolRequestSchema` request handler installed by `setupTools`
(server.js lines 42-89): validate the envelope; then, inside a `try` that
converts any thrown error `e` into the response `"Error: " ++ e.message`,
validate the input (failure → `"❌ Input validation failed: ..."` response),
apply defaults, resolve the handler (`null` → `throw new Error("Unknown tool:
...")`), and invoke it.  The function is total: every exit path yields a
`ToolResponse`, none throws. -/
def callToolHandler (st : SDKSchemaManager)
    (getToolHandler : String → Option Handler) (request : JValue) :
    ToolResponse :=
  if validateToolRequestValid request then
    let name := reqName request
    let args := reqArgs request
    match validateInput st name args with
    | .invalid e => textResponse ("❌ Input validation failed: " ++ e)
    | .valid data =>
        let validatedArgs := applyDefaults st data name
        match getToolHandler name with
        | none => textResponse ("Error: Unknown tool: " ++ name)
        | some h =>
            match h validatedArgs with
            | .ok resp => resp
            | .error msg => textResponse ("Error: " ++ msg)
  else
    textResponse ("❌ Invalid request format: " ++ validateToolRequestError request)

/- ### The Process Executor -/

/-- What the operating system reports back for one attempted child process:
either the process ran and exited with a code after writing to its two
streams, or it could not be spawned at all. -/
inductive ProcessOutcome where
  | exited (code : Int) (stdout stderr : String)
  | spawnFailed (message : String)

/-- The normalized `{success, output, error}` result (spec §3,
`ExecutionResult`). -/
structure ExecutionResult where
  success : Bool
  output : String
  error : Option String
deriving DecidableEq

/-- Modelled from the spec: `executeCommand` of the Process Executor
(`src/utils/command-executor.js`, imported by every tool handler but absent
from the source snapshot).  Per §4.4 and §3: the child's stdout and stderr are
accumulated into `output` and `error`; `success` is true iff the exit code is
exactly 0, regardless of stderr content; a spawn failure resolves
`success=false`, `output=""` and `error` set to the spawn failure's message.
The function is total on every outcome — failures are returned as a normal
`ExecutionResult`, never thrown past this boundary. -/
def executeCommand (outcome : ProcessOutcome) : ExecutionResult :=
  match outcome with
  | .exited code out err => { success := code == 0, output := out, error := some err }
  | .spawnFailed msg => { success := false, output := "", error := some msg }

/- ### Concrete objects used to exercise the development

A representative descriptor in the shape the schemas directory holds (cf. the
spec's end-to-end scenarios): `param1` a required string, `param2` an optional
boolean with `default: false`. -/

/-- The `properties` record of the example descriptor. -/
def demoProps : List (String × JValue) :=
  [("param1", .jObj [("type", .jStr "string")]),
   ("param2", .jObj [("type", .jStr "boolean"), ("default", .jBool false)])]

/-- The `inputSchema` of the example descriptor. -/
def demoInputSchema : JValue :=
  .jObj [("type", .jStr "object"), ("properties", .jObj demoProps),
         ("required", .jArr [.jStr "param1"])]

/-- The example descriptor document. -/
def demoDoc : JValue :=
  .jObj [("name", .jStr "example-tool"), ("description", .jStr "Example tool"),
         ("inputSchema", demoInputSchema)]

/-- The validator `createZodSchema` compiles for `demoDoc`. -/
def demoZodObject : ZodObject :=
  ⟨[("param1", ⟨.zstring, none, false⟩), ("param2", ⟨.zboolean, none, true⟩)]⟩

/-- The manager state after loading a directory holding exactly `demoDoc`. -/
def demoManager : SDKSchemaManager :=
  ⟨[("example-tool", demoDoc)], [("example-tool", demoZodObject)]⟩

/-- A shape-valid descriptor whose `inputSchema` has no `properties` field
(`ToolInputSchema` marks `properties` as `.optional()`, so this loads). -/
def docNoProps : JValue :=
  .jObj [("name", .jStr "no-props-tool"), ("description", .jStr "d"),
         ("inputSchema", .jObj [("type", .jStr "object")])]

/-- A document that parses as JSON but fails the descriptor shape check. -/
def docBadShape : JValue :=
  .jObj [("name", .jStr "broken")]

/-- A well-formed call request for `example-tool`. -/
def demoRequest : JValue :=
  .jObj [("method", .jStr "tools/call"),
         ("params", .jObj [("name", .jStr "example-tool"),
                           ("arguments", .jObj [("param1", .jStr "x")])])]

/-- A well-formed call request naming a tool with no registered validator. -/
def demoUnknownRequest : JValue :=
  .jObj [("method", .jStr "tools/call"),
         ("params", .jObj [("name", .jStr "no-such-tool"),
                           ("arguments", .jObj [])])]

/-- A property schema declaring `enum: ["a", "b"]` over base type string. -/
def demoEnumProp : JValue :=
  .jObj [("type", .jStr "string"), ("enum", .jArr [.jStr "a", .jStr "b"])]

/- ### Association-list lemmas -/

theorem alGet_alSet_self {α : Type} (m : List (String × α)) (k : String) (v : α) :
    alGet (alSet m k v) k = some v := by
  induction m with
  | nil => simp [alSet, alGet]
  | cons p rest ih =>
      by_cases h : p.1 = k
      · simp [alSet, alGet, h]
      · simp [alSet, alGet, h, ih]

theorem alGet_alSet_ne {α : Type} (m : List (String × α)) (k k' : String) (v : α)
    (h : k ≠ k') : alGet (alSet m k v) k' = alGet m k' := by
  induction m with
  | nil => simp [alSet, alGet, h]
  | cons p rest ih =>
      by_cases hp : p.1 = k
      · simp [alSet, alGet, hp, h]
      · simp [alSet, alGet, hp, ih]

theorem mem_alKeys_alSet {α : Type} (m : List (String × α)) (k k' : String) (v : α) :
    k' ∈ alKeys (alSet m k v) ↔ k' = k ∨ k' ∈ alKeys m := by
  induction m with
  | nil => simp [alSet, alKeys]
  | cons p rest ih =>
      by_cases hp : p.1 = k
      · subst hp
        simp [alSet, alKeys]
      · simp [alSet, alKeys, hp] at *
        tauto

theorem alGet_append_ne {α : Type} (m : List (String × α)) (k k' : String) (v : α)
    (h : k' ≠ k) : alGet (m ++ [(k, v)]) k' = alGet m k' := by
  induction m with
  | nil => simp [alGet, Ne.symm h]
  | cons p rest ih =>
      by_cases hp : p.1 = k'
      · simp [alGet, hp]
      · simp [alGet, hp, ih]

/- ### Schema-store lemmas -/

theorem createZodSchema_schemas (st : SDKSchemaManager) (doc : JValue) :
    (createZodSchema st doc).schemas = st.schemas := by
  unfold createZodSchema
  repeat' split
  all_goals rfl

theorem createZodSchema_zod_mono (st : SDKSchemaManager) (doc : JValue)
    (n : String) (h : n ∈ alKeys st.zodSchemas) :
    n ∈ alKeys (createZodSchema st doc).zodSchemas := by
  unfold createZodSchema
  repeat' split
  all_goals try exact h
  all_goals simp only [mem_alKeys_alSet]
  all_goals exact Or.inr h

theorem createZodSchema_zod_origin (st : SDKSchemaManager) (doc : JValue)
    (n : String) (h : n ∈ alKeys (createZodSchema st doc).zodSchemas) :
    n ∈ alKeys st.zodSchemas ∨ jsGet doc "name" = some (.jStr n) := by
  revert h
  unfold createZodSchema
  repeat' split
  all_goals intro h
  all_goals try exact Or.inl h
  all_goals rename_i hname
  all_goals rw [mem_alKeys_alSet] at h
  all_goals rcases h with rfl | h
  all_goals try exact Or.inl h
  all_goals exact Or.inr hname

theorem createZodSchema_zod_mem (st : SDKSchemaManager) (doc : JValue)
    (n : String) (hp : docHasProps doc = true)
    (hn : jsGet doc "name" = some (.jStr n)) :
    n ∈ alKeys (createZodSchema st doc).zodSchemas := by
  unfold docHasProps at hp
  cases his : jsGet doc "inputSchema" with
  | none => rw [his] at hp; cases hp
  | some is =>
      rw [his] at hp
      dsimp only at hp
      cases hprops : jsGet is "properties" with
      | none => rw [hprops] at hp; cases hp
      | some pv =>
          rw [hprops] at hp
          cases pv with
          | jObj props =>
              unfold createZodSchema
              rw [his]
              dsimp only
              rw [hprops]
              dsimp only
              rw [hn]
              simp [mem_alKeys_alSet]
          | jNull => simp at hp
          | jBool b => simp at hp
          | jNum a b => simp at hp
          | jStr s => simp at hp
          | jArr xs => simp at hp

theorem loadSchemasFrom_ok (files : List SchemaFile) :
    ∀ st : SDKSchemaManager,
    (∀ f ∈ files, strEndsWith f.fname ".json" = true → ∃ doc, f.contents = Except.ok doc) →
    ∃ st', loadSchemasFrom st files = .ok st' := by
  induction files with
  | nil => exact fun st _ => ⟨st, rfl⟩
  | cons f rest ih =>
      intro st h
      have hrest := fun g hg => h g (List.mem_cons_of_mem f hg)
      simp only [loadSchemasFrom]
      by_cases hj : strEndsWith f.fname ".json"
      · obtain ⟨doc, hdoc⟩ := h f (List.mem_cons_self f rest) hj
        rw [if_pos hj, hdoc]
        dsimp only
        by_cases hok : toolInputSchemaOk doc
        · rw [if_pos hok]
          split
          · exact ih _ hrest
          · exact ih _ hrest
        · rw [if_neg hok]
          exact ih _ hrest
      · rw [if_neg hj]
        exact ih _ hrest

theorem loadSchemasFrom_schemas_mono (files : List SchemaFile) :
    ∀ (st st' : SDKSchemaManager) (n : String),
    loadSchemasFrom st files = .ok st' →
    n ∈ alKeys st.schemas → n ∈ alKeys st'.schemas := by
  induction files with
  | nil =>
      intro st st' n h hm
      simp only [loadSchemasFrom] at h
      injection h with h
      subst h
      exact hm
  | cons f rest ih =>
      intro st st' n h hm
      simp only [loadSchemasFrom] at h
      by_cases hj : strEndsWith f.fname ".json"
      · rw [if_pos hj] at h
        cases hc : f.contents with
        | error e => rw [hc] at h; cases h
        | ok doc =>
            rw [hc] at h
            dsimp only at h
            by_cases hok : toolInputSchemaOk doc
            · rw [if_pos hok] at h
              split at h
              · refine ih _ _ n h ?_
                rw [createZodSchema_schemas]
                dsimp only
                rw [mem_alKeys_alSet]
                exact Or.inr hm
              · exact ih _ _ n h hm
            · rw [if_neg hok] at h
              exact ih _ _ n h hm
      · rw [if_neg hj] at h
        exact ih _ _ n h hm

theorem loadSchemasFrom_zod_mono (files : List SchemaFile) :
    ∀ (st st' : SDKSchemaManager) (n : String),
    loadSchemasFrom st files = .ok st' →
    n ∈ alKeys st.zodSchemas → n ∈ alKeys st'.zodSchemas := by
  induction files with
  | nil =>
      intro st st' n h hm
      simp only [loadSchemasFrom] at h
      injection h with h
      subst h
      exact hm
  | cons f rest ih =>
      intro st st' n h hm
      simp only [loadSchemasFrom] at h
      by_cases hj : strEndsWith f.fname ".json"
      · rw [if_pos hj] at h
        cases hc : f.contents with
        | error e => rw [hc] at h; cases h
        | ok doc =>
            rw [hc] at h
            dsimp only at h
            by_cases hok : toolInputSchemaOk doc
            · rw [if_pos hok] at h
              split at h
              · exact ih _ _ n h (createZodSchema_zod_mono _ doc n hm)
              · exact ih _ _ n h hm
            · rw [if_neg hok] at h
              exact ih _ _ n h hm
      · rw [if_neg hj] at h
        exact ih _ _ n h hm

theorem loadSchemasFrom_lockstep (files : List SchemaFile) :
    ∀ (st st' : SDKSchemaManager),
    loadSchemasFrom st files = .ok st' →
    (∀ n, n ∈ alKeys st.zodSchemas → n ∈ alKeys st.schemas) →
    ∀ n, n ∈ alKeys st'.zodSchemas → n ∈ alKeys st'.schemas := by
  induction files with
  | nil =>
      intro st st' h hinv
      simp only [loadSchemasFrom] at h
      injection h with h
      subst h
      exact hinv
  | cons f rest ih =>
      intro st st' h hinv
      simp only [loadSchemasFrom] at h
      by_cases hj : strEndsWith f.fname ".json"
      · rw [if_pos hj] at h
        cases hc : f.contents with
        | error e => rw [hc] at h; cases h
        | ok doc =>
            rw [hc] at h
            dsimp only at h
            by_cases hok : toolInputSchemaOk doc
            · rw [if_pos hok] at h
              split at h
              · rename_i m hname
                refine ih _ _ h ?_
                intro n hn
                rcases createZodSchema_zod_origin _ doc n hn with hold | hnew
                · rw [createZodSchema_schemas]
                  dsimp only
                  rw [mem_alKeys_alSet]
                  exact Or.inr (hinv n hold)
                · rw [createZodSchema_schemas]
                  dsimp only
                  rw [mem_alKeys_alSet]
                  rw [hname] at hnew
                  cases hnew
                  exact Or.inl rfl
              · exact ih _ _ h hinv
            · rw [if_neg hok] at h
              exact ih _ _ h hinv
      · rw [if_neg hj] at h
        exact ih _ _ h hinv

theorem loadSchemasFrom_schemas_mem (files : List SchemaFile) :
    ∀ (st st' : SDKSchemaManager),
    loadSchemasFrom st files = .ok st' →
    ∀ f ∈ files, ∀ (doc : JValue) (n : String),
    strEndsWith f.fname ".json" = true → f.contents = Except.ok doc →
    toolInputSchemaOk doc = true → jsGet doc "name" = some (.jStr n) →
    n ∈ alKeys st'.schemas := by
  induction files with
  | nil =>
      intro st st' _ f hf
      cases hf
  | cons g rest ih =>
      intro st st' h f hf doc n hj hc hok hn
      simp only [loadSchemasFrom] at h
      rcases List.mem_cons.mp hf with rfl | hfr
      · rw [if_pos hj, hc] at h
        dsimp only at h
        rw [if_pos hok, hn] at h
        refine loadSchemasFrom_schemas_mono rest _ _ n h ?_
        rw [createZodSchema_schemas]
        dsimp only
        rw [mem_alKeys_alSet]
        exact Or.inl rfl
      · by_cases hgj : strEndsWith g.fname ".json"
        · rw [if_pos hgj] at h
          cases hgc : g.contents with
          | error e => rw [hgc] at h; cases h
          | ok gdoc =>
              rw [hgc] at h
              dsimp only at h
              by_cases hgok : toolInputSchemaOk gdoc
              · rw [if_pos hgok] at h
                split at h
                · exact ih _ _ h f hfr doc n hj hc hok hn
                · exact ih _ _ h f hfr doc n hj hc hok hn
              · rw [if_neg hgok] at h
                exact ih _ _ h f hfr doc n hj hc hok hn
        · rw [if_neg hgj] at h
          exact ih _ _ h f hfr doc n hj hc hok hn

theorem loadSchemasFrom_zod_mem (files : List SchemaFile) :
    ∀ (st st' : SDKSchemaManager),
    loadSchemasFrom st files = .ok st' →
    ∀ f ∈ files, ∀ (doc : JValue) (n : String),
    strEndsWith f.fname ".json" = true → f.contents = Except.ok doc →
    toolInputSchemaOk doc = true → jsGet doc "name" = some (.jStr n) →
    docHasProps doc = true →
    n ∈ alKeys st'.zodSchemas := by
  induction files with
  | nil =>
      intro st st' _ f hf
      cases hf
  | cons g rest ih =>
      intro st st' h f hf doc n hj hc hok hn hp
      simp only [loadSchemasFrom] at h
      rcases List.mem_cons.mp hf with rfl | hfr
      · rw [if_pos hj, hc] at h
        dsimp only at h
        rw [if_pos hok, hn] at h
        exact loadSchemasFrom_zod_mono rest _ _ n h
          (createZodSchema_zod_mem _ doc n hp hn)
      · by_cases hgj : strEndsWith g.fname ".json"
        · rw [if_pos hgj] at h
          cases hgc : g.contents with
          | error e => rw [hgc] at h; cases h
          | ok gdoc =>
              rw [hgc] at h
              dsimp only at h
              by_cases hgok : toolInputSchemaOk gdoc
              · rw [if_pos hgok] at h
                split at h
                · exact ih _ _ h f hfr doc n hj hc hok hn hp
                · exact ih _ _ h f hfr doc n hj hc hok hn hp
              · rw [if_neg hgok] at h
                exact ih _ _ h f hfr doc n hj hc hok hn hp
        · rw [if_neg hgj] at h
          exact ih _ _ h f hfr doc n hj hc hok hn hp

theorem loadSchemasFrom_schemas_origin (files : List SchemaFile) :
    ∀ (st st' : SDKSchemaManager),
    loadSchemasFrom st files = .ok st' →
    ∀ n, n ∈ alKeys st'.schemas →
    n ∈ alKeys st.schemas ∨
      ∃ f ∈ files, ∃ doc, f.contents = Except.ok doc ∧
        toolInputSchemaOk doc = true ∧ jsGet doc "name" = some (.jStr n) := by
  induction files with
  | nil =>
      intro st st' h n hm
      simp only [loadSchemasFrom] at h
      injection h with h
      subst h
      exact Or.inl hm
  | cons g rest ih =>
      intro st st' h n hm
      simp only [loadSchemasFrom] at h
      by_cases hgj : strEndsWith g.fname ".json"
      · rw [if_pos hgj] at h
        cases hgc : g.contents with
        | error e => rw [hgc] at h; cases h
        | ok gdoc =>
            rw [hgc] at h
            dsimp only at h
            by_cases hgok : toolInputSchemaOk gdoc
            · rw [if_pos hgok] at h
              split at h
              · rename_i m hname
                rcases ih _ _ h n hm with hold | ⟨f, hfr, doc, hcd, hokd, hnd⟩
                · rw [createZodSchema_schemas] at hold
                  dsimp only at hold
                  rw [mem_alKeys_alSet] at hold
                  rcases hold with rfl | hold
                  · exact Or.inr ⟨g, List.mem_cons_self g rest, gdoc, hgc, hgok, hname⟩
                  · exact Or.inl hold
                · exact Or.inr ⟨f, List.mem_cons_of_mem g hfr, doc, hcd, hokd, hnd⟩
              · rcases ih _ _ h n hm with hold | ⟨f, hfr, doc, hcd, hokd, hnd⟩
                · exact Or.inl hold
                · exact Or.inr ⟨f, List.mem_cons_of_mem g hfr, doc, hcd, hokd, hnd⟩
            · rw [if_neg hgok] at h
              rcases ih _ _ h n hm with hold | ⟨f, hfr, doc, hcd, hokd, hnd⟩
              · exact Or.inl hold
              · exact Or.inr ⟨f, List.mem_cons_of_mem g hfr, doc, hcd, hokd, hnd⟩
      · rw [if_neg hgj] at h
        rcases ih _ _ h n hm with hold | ⟨f, hfr, doc, hcd, hokd, hnd⟩
        · exact Or.inl hold
        · exact Or.inr ⟨f, List.mem_cons_of_mem g hfr, doc, hcd, hokd, hnd⟩

/- ### Defaulting lemmas -/

theorem alGet_eq_none_of_not_mem {α : Type} (m : List (String × α)) (k : String)
    (h : k ∉ alKeys m) : alGet m k = none := by
  induction m with
  | nil => rfl
  | cons p rest ih =>
      have h' : k ∉ p.1 :: alKeys rest := h
      have h1 : p.1 ≠ k := by
        intro he
        exact h' (by rw [← he]; exact List.mem_cons_self _ _)
      have h2 : k ∉ alKeys rest := fun hm => h' (List.mem_cons_of_mem _ hm)
      simp only [alGet, if_neg h1]
      exact ih h2

theorem defaultsFold_get (props : List (String × JValue)) :
    ∀ (res : List (String × JValue)) (k : String),
    (alKeys props).Nodup →
    alGet (props.foldl defaultsStep res) k =
      (match alGet res k with
       | some v => some v
       | none =>
           match alGet props k with
           | some ps => jsGet ps "default"
           | none => none) := by
  induction props with
  | nil =>
      intro res k _
      cases h : alGet res k <;> simp [alGet, h]
  | cons p rest ih =>
      intro res k hnd
      have hnd' : (alKeys rest).Nodup := by
        simpa [alKeys] using hnd.of_cons
      have hp_notin : p.1 ∉ alKeys rest := by
        have := hnd
        simp only [alKeys, List.map_cons] at this
        exact (List.nodup_cons.mp this).1
      rw [List.foldl_cons, ih (defaultsStep res p) k hnd']
      by_cases hk : p.1 = k
      · subst hk
        have hrest : alGet rest p.1 = none := alGet_eq_none_of_not_mem rest p.1 hp_notin
        cases hres : alGet res p.1 with
        | some v =>
            have hstep : alGet (defaultsStep res p) p.1 = some v := by
              unfold defaultsStep
              split
              · rw [if_pos (by simp [alContains, hres])]
                exact hres
              · exact hres
            rw [hstep]
        | none =>
            cases hd : jsGet p.2 "default" with
            | some d =>
                have hstep : alGet (defaultsStep res p) p.1 = some d := by
                  unfold defaultsStep
                  rw [hd]
                  dsimp only
                  rw [if_neg (by simp [alContains, hres])]
                  exact alGet_alSet_self res p.1 d
                rw [hstep]
                simp [alGet, hd]
            | none =>
                have hstep : defaultsStep res p = res := by
                  unfold defaultsStep
                  rw [hd]
                rw [hstep, hres, hrest]
                simp [alGet, hd]
      · have hstep : alGet (defaultsStep res p) k = alGet res k := by
          unfold defaultsStep
          split
          · split
            · rfl
            · exact alGet_alSet_ne res p.1 k _ hk
          · rfl
        rw [hstep]
        cases hres : alGet res k with
        | some v => rfl
        | none => simp [alGet, hk]

/- ### Validator lemmas -/

theorem alKeys_zodData_sub (zs : ZodObject) (fields : List (String × JValue))
    (k : String) (h : k ∈ alKeys (zodData zs fields)) : k ∈ alKeys zs.fields := by
  simp only [alKeys, List.mem_map] at h ⊢
  obtain ⟨pr, hpr, hk⟩ := h
  simp only [zodData, List.mem_filterMap] at hpr
  obtain ⟨p, hp, hgp⟩ := hpr
  cases hget : alGet fields p.1 with
  | none => rw [hget] at hgp; cases hgp
  | some v =>
      rw [hget] at hgp
      injection hgp with hgp
      rw [← hgp] at hk
      exact ⟨p, hp, hk⟩

theorem zodParse_ignores_undeclared (zs : ZodObject)
    (fields : List (String × JValue)) (k : String) (v : JValue)
    (hk : k ∉ alKeys zs.fields) :
    zodIssues zs (fields ++ [(k, v)]) = zodIssues zs fields ∧
    zodData zs (fields ++ [(k, v)]) = zodData zs fields := by
  have hget : ∀ p ∈ zs.fields, alGet (fields ++ [(k, v)]) p.1 = alGet fields p.1 := by
    intro p hp
    apply alGet_append_ne
    intro he
    exact hk (he ▸ List.mem_map_of_mem Prod.fst hp)
  constructor
  · exact List.filterMap_congr (fun p hp => by rw [hget p hp])
  · exact List.filterMap_congr (fun p hp => by rw [hget p hp])

theorem zodIssues_ne_nil_of_missing_required (zs : ZodObject)
    (fields : List (String × JValue)) (k : String)
    (hmem : (k, (⟨.zstring, none, false⟩ : ZField)) ∈ zs.fields)
    (habs : alGet fields k = none) : zodIssues zs fields ≠ [] := by
  have hin : "Required" ∈ zodIssues zs fields := by
    simp only [zodIssues, List.mem_filterMap]
    exact ⟨(k, ⟨.zstring, none, false⟩), hmem, by rw [habs]; rfl⟩
  exact List.ne_nil_of_mem hin

/- ### The claims -/

/-- C1 (counterexample): the lock-step invariant between the descriptor index
and the validator cache fails as stated.  Loading the single shape-valid
descriptor `docNoProps`, whose `inputSchema` has no `properties` field,
succeeds and indexes it under `"no-props-tool"`, but `createZodSchema`
returns early for it, so the validator cache stays empty: the two name sets
differ after a successful load. -/
theorem c1_lockstep_counterexample :
    loadSchemas initialManager [⟨"no-props-tool.json", Except.ok docNoProps⟩] =
      .ok ⟨[("no-props-tool", docNoProps)], []⟩ ∧
    alKeys ((⟨[("no-props-tool", docNoProps)], []⟩ : SDKSchemaManager)).schemas ≠
      alKeys ((⟨[("no-props-tool", docNoProps)], []⟩ : SDKSchemaManager)).zodSchemas := by
  constructor
  · rfl
  · simp [alKeys]

/-- C1 (amended): after a successful `loadSchemas` from the empty state,
every name in the validator cache is also in the descriptor index, and every
loaded descriptor that does declare `inputSchema.properties` has a compiled
validator under its name; a descriptor without a `properties` field is
indexed with no validator, so the two name sets can differ. -/
theorem c1_lockstep_amended (files : List SchemaFile) (st' : SDKSchemaManager)
    (h : loadSchemas initialManager files = .ok st') :
    (∀ n, n ∈ alKeys st'.zodSchemas → n ∈ alKeys st'.schemas) ∧
    (∀ f ∈ files, ∀ (doc : JValue) (n : String),
      strEndsWith f.fname ".json" = true → f.contents = Except.ok doc →
      toolInputSchemaOk doc = true → jsGet doc "name" = some (.jStr n) →
      docHasProps doc = true → n ∈ alKeys st'.zodSchemas) := by
  constructor
  · intro n hn
    refine loadSchemasFrom_lockstep files initialManager st' h ?_ n hn
    intro m hm
    simp [initialManager, alKeys] at hm
  · intro f hf doc n hj hc hok hn hp
    exact loadSchemasFrom_zod_mem files initialManager st' h f hf doc n hj hc hok hn hp

/-- C1 (witness for the amended theorem): loading `demoDoc` puts
`"example-tool"` into the validator cache and the descriptor index. -/
theorem c1_lockstep_amended_witness :
    "example-tool" ∈ alKeys demoManager.zodSchemas ∧
    "example-tool" ∈ alKeys demoManager.schemas := by
  have happ := c1_lockstep_amended [⟨"example-tool.json", Except.ok demoDoc⟩]
    demoManager rfl
  have hzod := happ.2 ⟨"example-tool.json", Except.ok demoDoc⟩
    (List.mem_singleton_self _) demoDoc "example-tool" rfl rfl rfl rfl rfl
  exact ⟨hzod, happ.1 "example-tool" hzod⟩

/-- C2 (counterexample): a malformed descriptor document can prevent the
remaining descriptors from loading.  With one file whose contents fail
`JSON.parse` listed before a well-formed descriptor, `loadSchemas` re-throws
the parse error and the well-formed descriptor (which passes the shape check,
second conjunct) is never indexed. -/
theorem c2_malformed_skip_counterexample :
    loadSchemas initialManager
        [⟨"bad.json", Except.error "Unexpected token"⟩,
         ⟨"example-tool.json", Except.ok demoDoc⟩] =
      .error "Unexpected token" ∧
    toolInputSchemaOk demoDoc = true :=
  ⟨rfl, rfl⟩

/-- C2 (amended): provided every `.json` file in the directory parses as
JSON, `loadSchemas` succeeds, skips each descriptor failing the shape
validation, and still indexes every well-formed descriptor under its name;
every indexed name comes from the prior state or from some shape-valid
descriptor.  (A file whose contents fail `JSON.parse` instead aborts the
whole load — the surrounding catch re-throws.) -/
theorem c2_malformed_skip_amended (st : SDKSchemaManager)
    (files : List SchemaFile)
    (hparse : ∀ f ∈ files, strEndsWith f.fname ".json" = true →
      ∃ doc, f.contents = Except.ok doc) :
    ∃ st', loadSchemas st files = .ok st' ∧
      (∀ f ∈ files, ∀ (doc : JValue) (n : String),
        strEndsWith f.fname ".json" = true → f.contents = Except.ok doc →
        toolInputSchemaOk doc = true → jsGet doc "name" = some (.jStr n) →
        n ∈ alKeys st'.schemas) ∧
      (∀ n, n ∈ alKeys st'.schemas → n ∈ alKeys st.schemas ∨
        ∃ f ∈ files, ∃ doc, f.contents = Except.ok doc ∧
          toolInputSchemaOk doc = true ∧ jsGet doc "name" = some (.jStr n)) := by
  obtain ⟨st', hst'⟩ := loadSchemasFrom_ok files st hparse
  refine ⟨st', hst', ?_, ?_⟩
  · intro f hf doc n hj hc hok hn
    exact loadSchemasFrom_schemas_mem files st st' hst' f hf doc n hj hc hok hn
  · intro n hn
    exact loadSchemasFrom_schemas_origin files st st' hst' n hn

/-- C2 (witness for the amended theorem): a directory with the well-formed
`demoDoc` and the shape-invalid (but parseable) `docBadShape` loads
successfully and indexes the well-formed descriptor. -/
theorem c2_malformed_skip_amended_witness :
    ∃ st', loadSchemas initialManager
        [⟨"example-tool.json", Except.ok demoDoc⟩,
         ⟨"broken.json", Except.ok docBadShape⟩] = .ok st' ∧
      "example-tool" ∈ alKeys st'.schemas := by
  obtain ⟨st', hload, hmem, _⟩ := c2_malformed_skip_amended initialManager
    [⟨"example-tool.json", Except.ok demoDoc⟩,
     ⟨"broken.json", Except.ok docBadShape⟩]
    (by
      intro f hf _
      rcases List.mem_cons.mp hf with rfl | hf'
      · exact ⟨demoDoc, rfl⟩
      · rcases List.mem_cons.mp hf' with rfl | hf''
        · exact ⟨docBadShape, rfl⟩
        · cases hf'')
  exact ⟨st', hload, hmem ⟨"example-tool.json", Except.ok demoDoc⟩
    (List.mem_cons_self _ _) demoDoc "example-tool" rfl rfl rfl rfl⟩

/-- C3: for every validated argument object and every descriptor (whose
declared property names are distinct, as JSON object keys are),
`applyDefaults` (i) leaves every present property untouched — including
present-but-falsy values, since presence is tested with `key in result` —
(ii) sets each property that declares a `default` and is strictly absent from
the input to its declared default, and (iii) leaves properties absent from
the input with no declared default absent. -/
theorem c3_applyDefaults_correct (st : SDKSchemaManager)
    (input : List (String × JValue)) (name : String)
    (schema is : JValue) (props : List (String × JValue))
    (hs : alGet st.schemas name = some schema)
    (his : jsGet schema "inputSchema" = some is)
    (hp : jsGet is "properties" = some (.jObj props))
    (hnd : (alKeys props).Nodup) :
    (∀ k v, alGet input k = some v →
       alGet (applyDefaults st input name) k = some v) ∧
    (∀ k ps d, alGet input k = none → alGet props k = some ps →
       jsGet ps "default" = some d →
       alGet (applyDefaults st input name) k = some d) ∧
    (∀ k, alGet input k = none →
       (∀ ps, alGet props k = some ps → jsGet ps "default" = none) →
       alGet (applyDefaults st input name) k = none) := by
  have had : applyDefaults st input name = props.foldl defaultsStep input := by
    unfold applyDefaults
    rw [hs]
    dsimp only
    rw [his]
    dsimp only
    rw [hp]
  refine ⟨?_, ?_, ?_⟩
  · intro k v hv
    rw [had, defaultsFold_get props input k hnd, hv]
  · intro k ps d hin hps hd
    rw [had, defaultsFold_get props input k hnd, hin]
    dsimp only
    rw [hps]
    exact hd
  · intro k hin hnodef
    rw [had, defaultsFold_get props input k hnd, hin]
    dsimp only
    cases hq : alGet props k with
    | none => rfl
    | some ps => exact hnodef ps hq

/-- C3 (witness): against `demoDoc`, a present falsy `param2` value (the
number 0) survives defaulting untouched; an absent `param2` receives its
declared default `false`; an absent `param1` (which declares no default)
stays absent. -/
theorem c3_applyDefaults_correct_witness :
    alGet (applyDefaults demoManager
        [("param1", .jStr "x"), ("param2", .jNum 0 true)] "example-tool")
      "param2" = some (.jNum 0 true) ∧
    alGet (applyDefaults demoManager [("param1", .jStr "x")] "example-tool")
      "param2" = some (.jBool false) ∧
    alGet (applyDefaults demoManager [] "example-tool") "param1" = none := by
  have h1 := c3_applyDefaults_correct demoManager
    [("param1", .jStr "x"), ("param2", .jNum 0 true)] "example-tool"
    demoDoc demoInputSchema demoProps rfl rfl rfl (by decide)
  have h2 := c3_applyDefaults_correct demoManager
    [("param1", .jStr "x")] "example-tool"
    demoDoc demoInputSchema demoProps rfl rfl rfl (by decide)
  have h3 := c3_applyDefaults_correct demoManager [] "example-tool"
    demoDoc demoInputSchema demoProps rfl rfl rfl (by decide)
  refine ⟨h1.1 "param2" (.jNum 0 true) rfl, ?_, ?_⟩
  · exact h2.2.1 "param2" (.jObj [("type", .jStr "boolean"),
      ("default", .jBool false)]) (.jBool false) rfl rfl rfl
  · refine h3.2.2 "param1" rfl ?_
    intro ps hps
    injection hps with hps
    rw [← hps]
    rfl

/-- C4 (counterexample): the validation error message does not name the
violated property.  Against `demoDoc` (which requires the string property
`param1`), the empty object is rejected with exactly
`"Validation failed: Required"` — the string `"param1"` does not occur in it
(Zod's per-issue `message` omits the path and `validateInput` joins only the
messages).  The same object with `param1` supplied is accepted. -/
theorem c4_error_naming_counterexample :
    validateInput demoManager "example-tool" (some (.jObj [])) =
      .invalid "Validation failed: Required" ∧
    ¬ List.IsInfix "param1".toList ("Validation failed: Required").toList ∧
    validateInput demoManager "example-tool" (some (.jObj [("param1", .jStr "x")])) =
      .valid [("param1", .jStr "x")] :=
  ⟨rfl, by decide, rfl⟩

/-- C4 (amended): on failure `validateInput` returns an error that joins the
human-readable reasons of **all** violated properties, in declaration order,
after the prefix `"Validation failed: "` — but the reasons do not name the
property (a missing required property contributes just `"Required"`).  An
object missing a required (string) property is rejected; when every declared
property checks out, the object is accepted. -/
theorem c4_error_enumeration_amended (st : SDKSchemaManager) (name : String)
    (zs : ZodObject) (fields : List (String × JValue))
    (hz : alGet st.zodSchemas name = some zs) :
    (zodIssues zs fields ≠ [] →
      validateInput st name (some (.jObj fields)) =
        .invalid ("Validation failed: " ++
          String.intercalate ", " (zodIssues zs fields))) ∧
    (zodIssues zs fields = [] →
      validateInput st name (some (.jObj fields)) =
        .valid (zodData zs fields)) ∧
    (∀ k, (k, (⟨.zstring, none, false⟩ : ZField)) ∈ zs.fields →
      alGet fields k = none → zodIssues zs fields ≠ []) := by
  refine ⟨?_, ?_, ?_⟩
  · intro hne
    unfold validateInput
    rw [hz]
    unfold zodSafeParse
    dsimp only
    rw [if_neg (by simpa using hne)]
  · intro hemp
    unfold validateInput
    rw [hz]
    unfold zodSafeParse
    dsimp only
    rw [if_pos (by simp [hemp])]
  · intro k hm habs
    exact zodIssues_ne_nil_of_missing_required zs fields k hm habs

/-- C4 (witness for the amended theorem): against `demoDoc`, the empty object
is rejected with the joined issue list (which is nonempty because `param1` is
required and absent), and supplying `param1` yields acceptance. -/
theorem c4_error_enumeration_amended_witness :
    validateInput demoManager "example-tool" (some (.jObj [])) =
      .invalid ("Validation failed: " ++
        String.intercalate ", " (zodIssues demoZodObject [])) ∧
    validateInput demoManager "example-tool" (some (.jObj [("param1", .jStr "x")])) =
      .valid (zodData demoZodObject [("param1", .jStr "x")]) ∧
    zodIssues demoZodObject [] ≠ [] := by
  have h1 := c4_error_enumeration_amended demoManager "example-tool"
    demoZodObject [] rfl
  have h2 := c4_error_enumeration_amended demoManager "example-tool"
    demoZodObject [("param1", .jStr "x")] rfl
  exact ⟨h1.1 (by decide), h2.2.1 (by decide), h1.2.2 "param1" (by decide) rfl⟩

/-- C5: for every call request with a valid envelope whose arguments pass
validation, if the resolved handler throws/rejects with message `msg`, the
router returns the single-text response `"Error: " ++ msg`.  The router is
modelled as the total function `callToolHandler` into `ToolResponse`, so no
exception can escape it on any exit path by construction. -/
theorem c5_router_handler_error (st : SDKSchemaManager)
    (getToolHandler : String → Option Handler) (request : JValue)
    (data : List (String × JValue)) (h : Handler) (msg : String)
    (henv : validateToolRequestValid request = true)
    (hval : validateInput st (reqName request) (reqArgs request) = .valid data)
    (hh : getToolHandler (reqName request) = some h)
    (hrun : h (applyDefaults st data (reqName request)) = .error msg) :
    callToolHandler st getToolHandler request = textResponse ("Error: " ++ msg) := by
  unfold callToolHandler
  rw [if_pos henv]
  dsimp only
  rw [hval]
  dsimp only
  rw [hh]
  dsimp only
  rw [hrun]

/-- C5 (witness): a handler that rejects with `"boom"` yields the response
text `"Error: boom"`. -/
theorem c5_router_handler_error_witness :
    callToolHandler demoManager
      (fun _ => some (fun _ => Except.error "boom")) demoRequest =
      textResponse ("Error: " ++ "boom") :=
  c5_router_handler_error demoManager
    (fun _ => some (fun _ => Except.error "boom")) demoRequest
    [("param1", .jStr "x")] (fun _ => Except.error "boom") "boom"
    rfl rfl rfl rfl

/-- C6: a valid-envelope call naming a tool with no registered validator is
answered by `validateInput` with the failure `"Schema not found: <name>"`,
and the router returns the input-validation-failure response.  The theorem
holds for **every** dispatch table `getToolHandler`, so the response is
independent of any handler — no handler is invoked. -/
theorem c6_schema_not_found (st : SDKSchemaManager)
    (getToolHandler : String → Option Handler) (request : JValue)
    (henv : validateToolRequestValid request = true)
    (hz : alGet st.zodSchemas (reqName request) = none) :
    validateInput st (reqName request) (reqArgs request) =
      .invalid ("Schema not found: " ++ reqName request) ∧
    callToolHandler st getToolHandler request =
      textResponse ("❌ Input validation failed: " ++
        ("Schema not found: " ++ reqName request)) := by
  have hv : validateInput st (reqName request) (reqArgs request) =
      .invalid ("Schema not found: " ++ reqName request) := by
    unfold validateInput
    rw [hz]
  refine ⟨hv, ?_⟩
  unfold callToolHandler
  rw [if_pos henv]
  dsimp only
  rw [hv]

/-- C6 (witness): calling the unregistered tool `no-such-tool` yields the
schema-not-found validation failure, even with a dispatch table that has a
handler for every name. -/
theorem c6_schema_not_found_witness :
    validateInput demoManager (reqName demoUnknownRequest)
      (reqArgs demoUnknownRequest) =
      .invalid ("Schema not found: " ++ reqName demoUnknownRequest) ∧
    callToolHandler demoManager
      (fun _ => some (fun _ => Except.ok (textResponse "handler ran")))
      demoUnknownRequest =
      textResponse ("❌ Input validation failed: " ++
        ("Schema not found: " ++ reqName demoUnknownRequest)) :=
  c6_schema_not_found demoManager
    (fun _ => some (fun _ => Except.ok (textResponse "handler ran")))
    demoUnknownRequest rfl rfl

/-- C7: `reloadSchemas` clears both maps and re-runs `loadSchemas`, so
reloading over unchanged descriptor documents from any current state yields a
state with the same indexed names whose validators accept and reject exactly
the same inputs as the state the original load produced (indeed the states
are equal, so `validateInput` and `applyDefaults` agree on all inputs). -/
theorem c7_reload_roundtrip (files : List SchemaFile)
    (stBefore stCurrent : SDKSchemaManager)
    (h : loadSchemas initialManager files = .ok stBefore) :
    ∃ st', reloadSchemas stCurrent files = .ok st' ∧
      alKeys st'.schemas = alKeys stBefore.schemas ∧
      alKeys st'.zodSchemas = alKeys stBefore.zodSchemas ∧
      (∀ n input, validateInput st' n input = validateInput stBefore n input) ∧
      (∀ args n, applyDefaults st' args n = applyDefaults stBefore args n) :=
  ⟨stBefore, h, rfl, rfl, fun _ _ => rfl, fun _ _ => rfl⟩

/-- C7 (witness): reloading the directory holding exactly `demoDoc` from the
loaded state reproduces a behaviorally equivalent state. -/
theorem c7_reload_roundtrip_witness :
    ∃ st', reloadSchemas demoManager [⟨"example-tool.json", Except.ok demoDoc⟩] =
        .ok st' ∧
      alKeys st'.schemas = alKeys demoManager.schemas ∧
      alKeys st'.zodSchemas = alKeys demoManager.zodSchemas ∧
      (∀ n input, validateInput st' n input = validateInput demoManager n input) ∧
      (∀ args n, applyDefaults st' args n = applyDefaults demoManager args n) :=
  c7_reload_roundtrip [⟨"example-tool.json", Except.ok demoDoc⟩]
    demoManager demoManager rfl

/-- C8: a property schema declaring `enum: [...]` compiles to a validator
that accepts exactly the listed literal values and rejects every other value
(whatever the declared base type, which the enum replaces: the source
overwrites `zodType` with `z.enum(...)`); the property may additionally be
absent iff it is not listed in `required`. -/
theorem c8_enum_exact (required : List String) (key : String) (ps : JValue)
    (vs : List String)
    (he : jsGet ps "enum" = some (.jArr (vs.map JValue.jStr))) :
    (∀ v : JValue, fieldIssue (compileProp required key ps) (some v) = none ↔
       ∃ s ∈ vs, v = .jStr s) ∧
    (required.contains key = false →
       fieldIssue (compileProp required key ps) none = none) ∧
    (required.contains key = true →
       fieldIssue (compileProp required key ps) none = some "Required") := by
  have henum : (compileProp required key ps).enumVals = some vs := by
    unfold compileProp
    dsimp only
    rw [he]
    dsimp only
    congr 1
    rw [List.filterMap_map]
    have hcomp : (jStrVal ∘ JValue.jStr) = some := rfl
    rw [hcomp, List.filterMap_some]
  have hopt : (compileProp required key ps).optional = !required.contains key := rfl
  refine ⟨?_, ?_, ?_⟩
  · intro v
    unfold fieldIssue
    dsimp only
    rw [henum]
    dsimp only
    cases v with
    | jStr s =>
        dsimp only
        constructor
        · intro hnone
          by_cases hc : s ∈ vs
          · exact ⟨s, hc, rfl⟩
          · rw [if_neg (by simpa using hc)] at hnone
            cases hnone
        · rintro ⟨s', hs', he'⟩
          injection he' with he'
          subst he'
          rw [if_pos (by simpa using hs')]
    | jNull => simp
    | jBool b => simp
    | jNum a b => simp
    | jArr xs => simp
    | jObj fs => simp
  · intro h2
    unfold fieldIssue
    dsimp only
    rw [hopt, h2]
    rfl
  · intro h3
    unfold fieldIssue
    dsimp only
    rw [hopt, h3, henum]
    rfl

/-- C8 (witness): with `enum: ["a", "b"]`, the compiled field accepts
`"a"`, rejects `"c"` (a string matching the base type), may be absent when
not required, and reports `"Required"` when required and absent. -/
theorem c8_enum_exact_witness :
    fieldIssue (compileProp ["mode"] "mode" demoEnumProp) (some (.jStr "a")) = none ∧
    fieldIssue (compileProp ["mode"] "mode" demoEnumProp) (some (.jStr "c")) ≠ none ∧
    fieldIssue (compileProp [] "mode" demoEnumProp) none = none ∧
    fieldIssue (compileProp ["mode"] "mode" demoEnumProp) none = some "Required" := by
  have happ := c8_enum_exact ["mode"] "mode" demoEnumProp ["a", "b"] rfl
  have happ0 := c8_enum_exact [] "mode" demoEnumProp ["a", "b"] rfl
  refine ⟨(happ.1 (.jStr "a")).mpr ⟨"a", by simp, rfl⟩, ?_, happ0.2.1 rfl,
    happ.2.2 rfl⟩
  intro hnone
  obtain ⟨s, hs, he⟩ := (happ.1 (.jStr "c")).mp hnone
  injection he with he
  subst he
  simp at hs

/-- C9 (modelled from the spec, §4.4/§3: `src/utils/command-executor.js` is
imported by every tool handler but absent from the source snapshot): the
Process Executor resolves `success = true` iff the child exited with code
exactly 0 — regardless of stderr content, which is quantified over in the
iff — `output` is the accumulated stdout; a spawn failure resolves
`success = false`, `output = ""` and `error` set to the spawn failure's
message.  `executeCommand` is a total function into `ExecutionResult`, so it
never throws or rejects past this boundary. -/
theorem c9_executeCommand_spec :
    (∀ o : ProcessOutcome, (executeCommand o).success = true ↔
       ∃ out err, o = .exited 0 out err) ∧
    (∀ (code : Int) (out err : String),
       (executeCommand (.exited code out err)).output = out) ∧
    (∀ msg, executeCommand (.spawnFailed msg) =
       { success := false, output := "", error := some msg }) := by
  refine ⟨?_, fun _ _ _ => rfl, fun _ => rfl⟩
  intro o
  cases o with
  | exited code out err =>
      simp only [executeCommand]
      constructor
      · intro hz
        have hc : code = 0 := by simpa using hz
        exact ⟨out, err, by rw [hc]⟩
      · rintro ⟨out', err', he⟩
        injection he with h1 h2 h3
        rw [h1]
        rfl
  | spawnFailed msg =>
      simp only [executeCommand]
      constructor
      · intro hf
        exact Bool.noConfusion hf
      · rintro ⟨out, err, he⟩
        exact ProcessOutcome.noConfusion he

/-- C10: the data returned by a successful `validateInput` contains only
keys declared in the compiled schema (Zod objects strip unknown keys by
default), and appending an undeclared key to the incoming arguments leaves
the entire validation result — acceptance and returned data — unchanged:
extra keys are silently dropped, not rejected and not forwarded. -/
theorem c10_strip_unknown_keys (st : SDKSchemaManager) (name : String)
    (zs : ZodObject) (fields : List (String × JValue))
    (hz : alGet st.zodSchemas name = some zs) :
    (∀ data, validateInput st name (some (.jObj fields)) = .valid data →
       ∀ k, k ∈ alKeys data → k ∈ alKeys zs.fields) ∧
    (∀ k v, k ∉ alKeys zs.fields →
       validateInput st name (some (.jObj (fields ++ [(k, v)]))) =
       validateInput st name (some (.jObj fields))) := by
  constructor
  · intro data hval k hk
    unfold validateInput at hval
    rw [hz] at hval
    unfold zodSafeParse at hval
    dsimp only at hval
    by_cases hiss : (zodIssues zs fields).isEmpty
    · rw [if_pos hiss] at hval
      dsimp only at hval
      injection hval with hval
      rw [← hval] at hk
      exact alKeys_zodData_sub zs fields k hk
    · rw [if_neg hiss] at hval
      dsimp only at hval
      exact ValidationResult.noConfusion hval
  · intro k v hk
    obtain ⟨hi, hd⟩ := zodParse_ignores_undeclared zs fields k v hk
    unfold validateInput
    rw [hz]
    unfold zodSafeParse
    dsimp only
    rw [hi, hd]

/-- C10 (witness): the declared key `param1` is in the schema's key set, and
adding the undeclared key `extra` to the arguments leaves the validation
result for `example-tool` unchanged (accepted, with `extra` absent from the
returned data). -/
theorem c10_strip_unknown_keys_witness :
    "param1" ∈ alKeys demoZodObject.fields ∧
    validateInput demoManager "example-tool"
        (some (.jObj [("param1", .jStr "x"), ("extra", .jNum 5 true)])) =
      validateInput demoManager "example-tool"
        (some (.jObj [("param1", .jStr "x")])) := by
  have happ := c10_strip_unknown_keys demoManager "example-tool" demoZodObject
    [("param1", .jStr "x")] rfl
  refine ⟨happ.1 [("param1", .jStr "x")] rfl "param1" (by decide), ?_⟩
  exact happ.2 "extra" (.jNum 5 true) (by decide)

end AdobeIOMCP
